import Mathlib

/-!
Shallow embedding of the frequency-specification engine of
`pyfda/input_widgets/freq_specs.py` (class `FreqSpecs`), and proofs about it.

Real-valued quantities are modelled as rationals with exact arithmetic.
The global filter dictionary `fb.fil[0]` is modelled by `FilDict`; the
widget-side state (the list of QLineEdit object names and the number of
currently visible ones) by `WidgetState`.  Only the value-level behaviour is
embedded; label rendering, log output and Qt styling have no effect on the
stored values and are omitted.
-/

/-- `MIN_FREQ_STEP = 1e-4` (freq_specs.py line 26). -/
def MIN_FREQ_STEP : ℚ := 1/10000

/-- The fields of the global filter dictionary `fb.fil[0]` read or written by
`freq_specs.py`: the frequency entries (keyed by spec name, e.g. `"F_PB"`),
the current and previous sampling frequencies, and the two policy flags. -/
structure FilDict where
  vals : String → ℚ
  f_S : ℚ
  f_S_prev : ℚ
  freq_locked : Bool
  freq_specs_sort : Bool

/-- Widget-side state of the `FreqSpecs` class: `qlineedit` holds the
objectNames of every QLineEdit ever created (hidden ones included), and
`n_cur_labels` is the number of currently visible ones (the active slots). -/
structure WidgetState where
  qlineedit : List String
  n_cur_labels : ℕ

/-- `str(objectName).split(":", 1)[0]` (freq_specs.py lines 226-227 and 256-257):
the object name up to the first colon, the whole name when no colon occurs. -/
def labelOf (s : String) : String := ⟨s.data.takeWhile (fun c => c ≠ ':')⟩

/-- The dict mutations of the `recalc_freqs` loop (freq_specs.py lines 225-232):
for each widget in order, `fil[label] := fil[label] * f_S_prev / f_S`,
applied sequentially to the shared dictionary. -/
def recalcFold (p s : ℚ) (vals : String → ℚ) (names : List String) : String → ℚ :=
  names.foldl (fun v n => Function.update v (labelOf n) (v (labelOf n) * p / s)) vals

/-- `FreqSpecs.recalc_freqs` (freq_specs.py lines 219-237), value-level part.
When `freq_locked` is set, every widget's entry is multiplied by
`f_S_prev / f_S`; Python raises `ZeroDivisionError` at the first division when
`f_S == 0` (before any dict write), modelled as `none`.  When `freq_locked` is
not set nothing is mutated; the remaining body only refreshes the display. -/
def recalc_freqs (st : WidgetState) (fil : FilDict) : Option FilDict :=
  if fil.freq_locked then
    if fil.f_S = 0 ∧ st.qlineedit ≠ [] then none
    else some { fil with vals := recalcFold fil.f_S_prev fil.f_S fil.vals st.qlineedit }
  else some fil

/-- The objectNames of the currently visible widgets, i.e. the active slots:
indices `0 .. n_cur_labels - 1` of `qlineedit` (freq_specs.py lines 381-382). -/
def activeNames (st : WidgetState) : List String := st.qlineedit.take st.n_cur_labels

/-- The list `f_specs` built by `sort_dict_freqs` (freq_specs.py lines 381-382):
the stored values of the visible widgets, in slot order. -/
def f_specs (st : WidgetState) (fil : FilDict) : List ℚ := (activeNames st).map fil.vals

/-- The value list after the optional in-place `f_specs.sort()`
(freq_specs.py lines 384-385); Python's `list.sort` is an ascending stable
sort, embedded as insertion sort (extensionally the same function). -/
def sortedSpecs (st : WidgetState) (fil : FilDict) : List ℚ :=
  if fil.freq_specs_sort then (f_specs st fil).insertionSort (· ≤ ·) else f_specs st fil

/-- The write-back loop of `sort_dict_freqs` (freq_specs.py lines 387-388):
`fil[names[i]] := xs[i]` for the visible slots, applied sequentially. -/
def writeBack : (String → ℚ) → List String → List ℚ → (String → ℚ)
  | vals, _, [] => vals
  | vals, [], _ => vals
  | vals, n :: ns, x :: xs => writeBack (Function.update vals n x) ns xs

/-- `FreqSpecs.sort_dict_freqs` (freq_specs.py lines 365-412), value-level part:
read the visible entries, sort them if `freq_specs_sort` is set, write them
back under the name occupying each slot.  The subsequent separation check only
logs a warning and `load_dict` only refreshes the display. -/
def sort_dict_freqs (st : WidgetState) (fil : FilDict) : FilDict :=
  { fil with vals := writeBack fil.vals (activeNames st) (sortedSpecs st fil) }

/-- Modelled from the spec: `unique_roots` lives in `pyfda.libs.pyfda_lib`,
which is not under src/.  Per spec section 4.3, near-duplicate detection sorts
the values and groups together any run in which all consecutive gaps are below
the threshold.  `gapGroups` splits an ascending list into such runs. -/
def gapGroups (tol : ℚ) : List ℚ → List (List ℚ)
  | [] => []
  | [x] => [[x]]
  | x :: y :: rest =>
    match gapGroups tol (y :: rest) with
    | [] => [[x]]
    | g :: gs => if |y - x| < tol then (x :: g) :: gs else [x] :: g :: gs

/-- Modelled from the spec: the separation check of spec section 4.3 (the
counterpart of the `unique_roots` call at freq_specs.py line 407) reports the
groups of two or more mutually-close values. -/
def collisionGroups (tol : ℚ) (values : List ℚ) : List (List ℚ) :=
  (gapGroups tol (values.insertionSort (· ≤ ·))).filter fun g => decide (1 < g.length)

/-- Numeric display value computed by `FreqSpecs.update_f_display`
(freq_specs.py line 258): `fil[f_label] * f_S`.  The active unit is not
inspected anywhere in the conversion, so the `unit` argument is unused. -/
def to_display (v f_S : ℚ) (_unit : String) : ℚ := v * f_S

/-- Inverse conversion used by `FreqSpecs._store_entry` (freq_specs.py lines
160-161): the entered value divided by `f_S`; again the unit is not inspected. -/
def from_display (d f_S : ℚ) (_unit : String) : ℚ := d / f_S

/-- The unit-dependent conversion as the spec words it (section 4.1), stated
for comparison with `to_display`: for the two relative units the displayed
value is the normalized value itself, otherwise `normalized * f_S`. -/
def to_display_spec (v f_S : ℚ) (unit : String) : ℚ :=
  if unit = "f_S" ∨ unit = "f_Ny" then v else v * f_S

/-- Numeric value redisplayed for a widget after a store, per
`update_f_display` (freq_specs.py lines 256-258). -/
def displayValue (fil : FilDict) (name : String) : ℚ :=
  fil.vals (labelOf name) * fil.f_S

/-- Modelled from the spec: `safe_eval` lives in `pyfda.libs.pyfda_lib`, not
under src/.  Per spec sections 6 and 7, a committed edit either parses as a
signed real number or is a `ParseError` recovered by falling back to the
previous text; the parse outcome is modelled as `Option ℚ` (`none` = parse or
sign failure) and `safe_eval` returns the fallback value on failure. -/
def safe_eval (parsed : Option ℚ) (fallback : ℚ) : ℚ := parsed.getD fallback

/-- `FreqSpecs._store_entry` (freq_specs.py lines 149-167), value-level part:
when the field was edited, evaluate the text (falling back to the numeric
value `data_prev` of the previous text), divide by `f_S`, store the result
under the widget's objectName, then run `sort_dict_freqs`.  When the field was
not edited only the display is refreshed. -/
def store_entry (st : WidgetState) (fil : FilDict) (spec_edited : Bool)
    (name : String) (parsed : Option ℚ) (data_prev : ℚ) : FilDict :=
  if spec_edited then
    sort_dict_freqs st
      { fil with vals := Function.update fil.vals name (safe_eval parsed data_prev / fil.f_S) }
  else fil

/-- Modelled from the spec: the sampling-frequency-changed event handler lives
in the enclosing application (the freq_units widget), not under src/.  Per spec
sections 4.5 and 6 it stores the new `f_S`, invokes the rescale (the
source-embedded `recalc_freqs`), and afterwards updates `f_S_prev` to the new
`f_S` so the next rescale uses a correct baseline. -/
def on_sampling_frequency_changed (st : WidgetState) (fil : FilDict)
    (new_f_S : ℚ) : Option FilDict :=
  match recalc_freqs st { fil with f_S := new_f_S } with
  | none => none
  | some fil2 => some { fil2 with f_S_prev := new_f_S }

/-! Helper lemmas about the sequential dictionary writes. -/

theorem writeBack_notMem (names : List String) (xs : List ℚ) (vals : String → ℚ)
    (name : String) (h : name ∉ names) : writeBack vals names xs name = vals name := by
  induction names generalizing xs vals with
  | nil => cases xs <;> rfl
  | cons n ns ih =>
    cases xs with
    | nil => rfl
    | cons x xs =>
      have hn : name ≠ n := fun e => h (e ▸ List.mem_cons_self n ns)
      have hns : name ∉ ns := fun e => h (List.mem_cons_of_mem n e)
      rw [writeBack, ih xs _ hns, Function.update_noteq hn]

theorem map_writeBack (names : List String) (xs : List ℚ) (vals : String → ℚ)
    (hnd : names.Nodup) (hlen : xs.length = names.length) :
    names.map (writeBack vals names xs) = xs := by
  induction names generalizing xs vals with
  | nil => cases xs with
    | nil => rfl
    | cons x xs => simp at hlen
  | cons n ns ih =>
    cases xs with
    | nil => simp at hlen
    | cons x xs =>
      rw [List.nodup_cons] at hnd
      rw [List.map_cons, writeBack]
      have hhead : writeBack (Function.update vals n x) ns xs n = x := by
        rw [writeBack_notMem ns xs _ n hnd.1, Function.update_same]
      rw [hhead, ih xs _ hnd.2 (by simpa using hlen)]

theorem writeBack_self (names : List String) (vals : String → ℚ) (name : String) :
    writeBack vals names (names.map vals) name = vals name := by
  induction names generalizing vals with
  | nil => rfl
  | cons n ns ih =>
    rw [List.map_cons, writeBack, Function.update_eq_self]
    exact ih vals

theorem recalcFold_notMem (names : List String) (p s : ℚ) (vals : String → ℚ)
    (name : String) (h : name ∉ names.map labelOf) :
    recalcFold p s vals names name = vals name := by
  induction names generalizing vals with
  | nil => rfl
  | cons n ns ih =>
    have hn : name ≠ labelOf n := fun e => h (e ▸ List.mem_cons_self _ _)
    have hns : name ∉ ns.map labelOf := fun e => h (List.mem_cons_of_mem _ e)
    rw [recalcFold, List.foldl_cons]
    rw [show (List.foldl (fun v n => Function.update v (labelOf n)
        (v (labelOf n) * p / s)) (Function.update vals (labelOf n)
        (vals (labelOf n) * p / s)) ns) name
      = recalcFold p s (Function.update vals (labelOf n)
          (vals (labelOf n) * p / s)) ns name from rfl]
    rw [ih _ hns, Function.update_noteq hn]

theorem recalcFold_mem (names : List String) (p s : ℚ) (vals : String → ℚ)
    (n : String) (hnd : (names.map labelOf).Nodup) (hm : n ∈ names) :
    recalcFold p s vals names (labelOf n) = vals (labelOf n) * p / s := by
  induction names generalizing vals with
  | nil => cases hm
  | cons m ms ih =>
    rw [List.map_cons, List.nodup_cons] at hnd
    rw [recalcFold, List.foldl_cons]
    rw [show (List.foldl (fun v n => Function.update v (labelOf n)
        (v (labelOf n) * p / s)) (Function.update vals (labelOf m)
        (vals (labelOf m) * p / s)) ms)
      = recalcFold p s (Function.update vals (labelOf m)
          (vals (labelOf m) * p / s)) ms from rfl]
    rcases List.mem_cons.mp hm with he | hms
    · subst he
      rw [recalcFold_notMem ms p s _ _ hnd.1, Function.update_same]
    · have hne : labelOf m ≠ labelOf n := by
        intro e
        exact hnd.1 (e ▸ List.mem_map_of_mem labelOf hms)
      rw [ih _ hnd.2 hms, Function.update_noteq (Ne.symm hne)]

/-! Claim theorems. -/

/-- C1: with `freq_locked` set, a sampling-frequency change rescales every
active parameter to `old * f_S_prev / f_S`, which preserves the absolute
frequency: `new * f_S = old * f_S_prev`. -/
theorem C1_rescale_preserves_absolute (st : WidgetState) (fil : FilDict)
    (hlock : fil.freq_locked = true) (hfS : fil.f_S ≠ 0)
    (hnd : (st.qlineedit.map labelOf).Nodup)
    (name : String) (hmem : name ∈ activeNames st) :
    (recalc_freqs st fil).map (fun f => f.vals (labelOf name))
        = some (fil.vals (labelOf name) * fil.f_S_prev / fil.f_S) ∧
      (recalc_freqs st fil).map (fun f => f.vals (labelOf name) * fil.f_S)
        = some (fil.vals (labelOf name) * fil.f_S_prev) := by
  have hq : name ∈ st.qlineedit := List.take_subset _ _ hmem
  have hval : recalcFold fil.f_S_prev fil.f_S fil.vals st.qlineedit (labelOf name)
      = fil.vals (labelOf name) * fil.f_S_prev / fil.f_S :=
    recalcFold_mem st.qlineedit _ _ _ name hnd hq
  rw [recalc_freqs, if_pos hlock, if_neg (by simp [hfS])]
  refine ⟨by simp [hval], ?_⟩
  show some (recalcFold fil.f_S_prev fil.f_S fil.vals st.qlineedit (labelOf name) * fil.f_S) = _
  rw [hval, div_mul_cancel₀ _ hfS]

/-- C1 witness: `f_S` 1000 to 2000 with `freq_locked` turns normalized 1/4
into 1/8, keeping the absolute frequency 250. -/
theorem C1_rescale_preserves_absolute_witness :
    (recalc_freqs ⟨["F_PB"], 1⟩
          ⟨fun _ => 1/4, 2000, 1000, true, false⟩).map (fun f => f.vals (labelOf "F_PB"))
        = some ((1:ℚ)/4 * 1000 / 2000) ∧
      (recalc_freqs ⟨["F_PB"], 1⟩
          ⟨fun _ => 1/4, 2000, 1000, true, false⟩).map (fun f => f.vals (labelOf "F_PB") * 2000)
        = some ((1:ℚ)/4 * 1000) :=
  C1_rescale_preserves_absolute ⟨["F_PB"], 1⟩ ⟨fun _ => 1/4, 2000, 1000, true, false⟩
    rfl (by norm_num) (by decide) "F_PB" (by decide)

/-- C2: converting a normalized value in (0, 1/2) to its displayed value and
parsing the displayed value back yields the value again, for every unit and
every positive sampling frequency. -/
theorem C2_display_roundtrip (v f_S : ℚ) (unit : String)
    (_h0 : 0 < v) (_h1 : v < 1/2) (hfS : 0 < f_S) :
    from_display (to_display v f_S unit) f_S unit = v := by
  rw [to_display, from_display, mul_div_cancel_right₀ _ (ne_of_gt hfS)]

/-- C2 witness: v = 1/4, f_S = 1000, unit "Hz". -/
theorem C2_display_roundtrip_witness :
    from_display (to_display (1/4) 1000 "Hz") 1000 "Hz" = (1:ℚ)/4 :=
  C2_display_roundtrip (1/4) 1000 "Hz" (by norm_num) (by norm_num) (by norm_num)

/-- C7: when `freq_locked` is false, `recalc_freqs` leaves the filter
dictionary, hence every stored normalized value, unchanged. -/
theorem C7_unlocked_no_mutation (st : WidgetState) (fil : FilDict)
    (h : fil.freq_locked = false) :
    recalc_freqs st fil = some fil := by
  rw [recalc_freqs, h]
  rfl

/-- C7 witness: a concrete unlocked state is returned unchanged by a
sampling-frequency change. -/
theorem C7_unlocked_no_mutation_witness :
    recalc_freqs ⟨["F_SB", "F_PB"], 2⟩ ⟨fun _ => 1/4, 2000, 1000, false, false⟩
      = some ⟨fun _ => 1/4, 2000, 1000, false, false⟩ :=
  C7_unlocked_no_mutation ⟨["F_SB", "F_PB"], 2⟩
    ⟨fun _ => 1/4, 2000, 1000, false, false⟩ rfl

/-- C8 counterexample: with unit "f_S" and f_S = 1000 the code displays
1/4 * 1000 = 250, not the normalized value 1/4: the conversion multiplies by
f_S for every unit, so it is not unit-dependent as claimed. -/
theorem C8_counterexample :
    to_display (1/4) 1000 "f_S" = 250 ∧ ((250 : ℚ) ≠ 1/4) ∧
      to_display (1/4) 1000 "f_S" ≠ to_display_spec (1/4) 1000 "f_S" := by
  refine ⟨by norm_num [to_display], by norm_num, ?_⟩
  rw [to_display, to_display_spec, if_pos (Or.inl rfl)]
  norm_num

/-- C8 amended: the conversion never inspects the unit: for every unit the
displayed value is `normalized * f_S` and the inverse divides by `f_S`; the
displayed value coincides with the normalized value exactly in contexts where
`f_S = 1` (the convention the external unit handler maintains for the
relative units). -/
theorem C8_amended_unit_independent (v d f_S : ℚ) (u u2 : String) :
    to_display v f_S u = to_display v f_S u2 ∧
      to_display v f_S u = v * f_S ∧
      from_display d f_S u = d / f_S ∧
      to_display v 1 u = v := by
  refine ⟨rfl, rfl, rfl, ?_⟩
  rw [to_display, mul_one]

/-- C9: after a completed sampling-frequency change (freq_locked, valid new
f_S), `f_S_prev` equals the new `f_S`, so the next rescale event uses the
correct baseline. -/
theorem C9_baseline_updated (st : WidgetState) (fil : FilDict) (new_f_S : ℚ)
    (hlock : fil.freq_locked = true) (hfS : new_f_S ≠ 0) :
    (on_sampling_frequency_changed st fil new_f_S).map (fun f => (f.f_S_prev, f.f_S))
      = some (new_f_S, new_f_S) := by
  rw [on_sampling_frequency_changed, recalc_freqs]
  rw [show ({ fil with f_S := new_f_S } : FilDict).freq_locked = fil.freq_locked from rfl]
  rw [hlock, if_pos rfl, if_neg (by simp [hfS])]
  rfl

/-- C9 witness: changing f_S from 1000 to 2000 on a locked state leaves
f_S_prev = f_S = 2000. -/
theorem C9_baseline_updated_witness :
    (on_sampling_frequency_changed ⟨["F_PB"], 1⟩
        ⟨fun _ => 1/4, 1000, 1000, true, false⟩ 2000).map (fun f => (f.f_S_prev, f.f_S))
      = some (2000, 2000) :=
  C9_baseline_updated ⟨["F_PB"], 1⟩ ⟨fun _ => 1/4, 1000, 1000, true, false⟩ 2000
    rfl (by norm_num)

/-- C3: when sorting is disabled, `sort_dict_freqs` leaves every stored value
unchanged; when enabled, the active slots receive the ascending sorted values
(slot i gets the i-th smallest), written back under the name occupying slot i. -/
theorem C3_sort_slots (st : WidgetState) (fil : FilDict)
    (hnd : (activeNames st).Nodup) :
    (fil.freq_specs_sort = false →
      ∀ name, (sort_dict_freqs st fil).vals name = fil.vals name) ∧
    (fil.freq_specs_sort = true →
      (activeNames st).map (sort_dict_freqs st fil).vals
          = (f_specs st fil).insertionSort (· ≤ ·) ∧
        ((f_specs st fil).insertionSort (· ≤ ·)).Sorted (· ≤ ·) ∧
        ((f_specs st fil).insertionSort (· ≤ ·)).Perm (f_specs st fil)) := by
  constructor
  · intro h name
    show writeBack fil.vals (activeNames st) (sortedSpecs st fil) name = fil.vals name
    rw [sortedSpecs, h]
    simp only [Bool.false_eq_true, if_false, f_specs]
    exact writeBack_self _ _ _
  · intro h
    refine ⟨?_, List.sorted_insertionSort _ _, List.perm_insertionSort _ _⟩
    show (activeNames st).map (writeBack fil.vals (activeNames st) (sortedSpecs st fil)) = _
    rw [sortedSpecs, h, if_pos rfl]
    exact map_writeBack _ _ _ hnd
      (by rw [List.length_insertionSort, f_specs, List.length_map])

/-- C3 witness: active set [F_SB, F_PB] holding values 3/10 and 1/10 with
sorting enabled: slot F_SB receives 1/10 and slot F_PB receives 3/10. -/
theorem C3_sort_slots_witness :
    (activeNames ⟨["F_SB", "F_PB"], 2⟩).map
        (sort_dict_freqs ⟨["F_SB", "F_PB"], 2⟩
          ⟨fun n => if n = "F_PB" then 1/10 else 3/10, 1000, 1000, false, true⟩).vals
      = [(1:ℚ)/10, 3/10] :=
  (((C3_sort_slots ⟨["F_SB", "F_PB"], 2⟩
      ⟨fun n => if n = "F_PB" then 1/10 else 3/10, 1000, 1000, false, true⟩
      (by decide)).2 rfl).1).trans
    (by norm_num [f_specs, activeNames, List.insertionSort, List.orderedInsert,
      show ("F_SB" : String) ≠ "F_PB" from by decide])

/-- C4 counterexample: invoked with the negative sampling frequency
f_S = -1000 on a locked state, the rescale does not fail at all: it succeeds
and mutates the stored value of F_PB from 1/4 to -1/4, so it neither raises an
InvalidSamplingFrequencyError nor leaves the store unmutated. -/
theorem C4_counterexample :
    (recalc_freqs ⟨["F_PB"], 1⟩ ⟨fun _ => 1/4, -1000, 1000, true, false⟩).map
        (fun f => f.vals "F_PB") = some (-(1/4 : ℚ)) ∧ (-(1/4 : ℚ) ≠ 1/4) := by
  have h : labelOf "F_PB" = "F_PB" := by decide
  constructor
  · rw [recalc_freqs, if_pos rfl, if_neg (by norm_num)]
    norm_num [recalcFold, h, Function.update]
  · norm_num

/-- C4 amended: the code performs no validity check on the sampling frequency.
With `freq_locked` and `f_S = 0` the rescale aborts with a division-by-zero
before any value is written (a ZeroDivisionError, not an
InvalidSamplingFrequencyError); with any nonzero `f_S` — negative included —
no error occurs and every widget's stored value is rescaled by
`f_S_prev / f_S`. -/
theorem C4_amended_no_validity_check (st : WidgetState) (fil : FilDict)
    (hlock : fil.freq_locked = true) :
    (fil.f_S = 0 → st.qlineedit ≠ [] → recalc_freqs st fil = none) ∧
    (fil.f_S ≠ 0 → (st.qlineedit.map labelOf).Nodup →
      ∀ name, name ∈ st.qlineedit →
        (recalc_freqs st fil).map (fun f => f.vals (labelOf name))
          = some (fil.vals (labelOf name) * fil.f_S_prev / fil.f_S)) := by
  constructor
  · intro h0 hne
    rw [recalc_freqs, if_pos hlock, if_pos ⟨h0, hne⟩]
  · intro hfS hnd name hmem
    rw [recalc_freqs, if_pos hlock, if_neg (by simp [hfS])]
    simp [recalcFold_mem st.qlineedit _ _ _ name hnd hmem]

/-- C4 amended witness: at f_S = -1000 the rescale of F_PB succeeds and yields
1/4 * 1000 / (-1000). -/
theorem C4_amended_no_validity_check_witness :
    (recalc_freqs ⟨["F_PB"], 1⟩ ⟨fun _ => 1/4, -1000, 1000, true, false⟩).map
        (fun f => f.vals (labelOf "F_PB"))
      = some ((1:ℚ)/4 * 1000 / (-1000)) :=
  (C4_amended_no_validity_check ⟨["F_PB"], 1⟩
      ⟨fun _ => 1/4, -1000, 1000, true, false⟩ rfl).2
    (by norm_num) (by decide) "F_PB" (by decide)

/-- C5 counterexample: with sorting enabled and an unsorted store
(F_SB = 3/10, F_PB = 1/5), committing an unparseable edit for F_PB (parse
failure, fallback to the previous text 200 = 1/5 * 1000) still changes F_PB's
stored value from 1/5 to 3/10: the always-run sort step moves values between
slots even though the parse failed. -/
theorem C5_counterexample :
    (store_entry ⟨["F_SB", "F_PB"], 2⟩
        ⟨fun n => if n = "F_PB" then 1/5 else 3/10, 1000, 1000, false, true⟩
        true "F_PB" none 200).vals "F_PB" = 3/10 ∧ ((3:ℚ)/10 ≠ 1/5) := by
  constructor
  · norm_num [store_entry, safe_eval, sort_dict_freqs, sortedSpecs, f_specs,
      activeNames, writeBack, Function.update, List.insertionSort, List.orderedInsert,
      show ("F_SB" : String) ≠ "F_PB" from by decide]
  · norm_num

/-- C5 amended: on a parse failure `safe_eval` falls back to the previous
text, so the parameter is rewritten with its previous stored value; whenever
sorting is disabled every stored value is unchanged and the redisplayed value
equals the previous text.  (With sorting enabled the always-run sort step may
still move values between slots, as the counterexample shows.) -/
theorem C5_amended_parse_failure (st : WidgetState) (fil : FilDict)
    (name : String) (data_prev : ℚ)
    (hname : labelOf name = name) (hsort : fil.freq_specs_sort = false)
    (hfS : fil.f_S ≠ 0) (hprev : data_prev = fil.vals name * fil.f_S) :
    (∀ m, (store_entry st fil true name none data_prev).vals m = fil.vals m) ∧
    displayValue (store_entry st fil true name none data_prev) name = data_prev := by
  have hupd : Function.update fil.vals name (safe_eval none data_prev / fil.f_S)
      = fil.vals := by
    rw [safe_eval, Option.getD_none, hprev, mul_div_cancel_right₀ _ hfS]
    exact Function.update_eq_self _ _
  have hse : store_entry st fil true name none data_prev = sort_dict_freqs st fil := by
    rw [store_entry, if_pos rfl, hupd]
  have hvals : ∀ m, (sort_dict_freqs st fil).vals m = fil.vals m := by
    intro m
    show writeBack fil.vals (activeNames st) (sortedSpecs st fil) m = fil.vals m
    rw [sortedSpecs, hsort]
    simp only [Bool.false_eq_true, if_false, f_specs]
    exact writeBack_self _ _ _
  constructor
  · intro m
    rw [hse]
    exact hvals m
  · show (store_entry st fil true name none data_prev).vals (labelOf name)
        * (store_entry st fil true name none data_prev).f_S = data_prev
    rw [hse, show (sort_dict_freqs st fil).f_S = fil.f_S from rfl,
      hvals (labelOf name), hname, hprev]

/-- C5 amended witness: sorting disabled, F_PB = 1/4 at f_S = 1000; an
unparseable edit leaves F_PB at 1/4 and redisplays 250. -/
theorem C5_amended_parse_failure_witness :
    (store_entry ⟨["F_PB"], 1⟩ ⟨fun _ => 1/4, 1000, 1000, false, false⟩
        true "F_PB" none 250).vals "F_PB" = (1:ℚ)/4 ∧
      displayValue (store_entry ⟨["F_PB"], 1⟩
        ⟨fun _ => 1/4, 1000, 1000, false, false⟩ true "F_PB" none 250) "F_PB" = 250 := by
  have h := C5_amended_parse_failure ⟨["F_PB"], 1⟩
    ⟨fun _ => 1/4, 1000, 1000, false, false⟩ "F_PB" 250
    (by decide) rfl (by norm_num) (by norm_num)
  exact ⟨h.1 "F_PB", h.2⟩

/-- Helper: the collision report of a two-element ascending run. -/
theorem collisionPair_aux (tol u v : ℚ) :
    (gapGroups tol [u, v]).filter (fun g => decide (1 < g.length))
      = if |v - u| < tol then [[u, v]] else [] := by
  by_cases hlt : |v - u| < tol <;> simp [gapGroups, hlt]

/-- C6: two values are flagged as a collision exactly when their absolute
difference is below MIN_FREQ_STEP, and grouping works by sorting and merging
runs of below-threshold consecutive gaps: on [0.1, 0.10005, 0.3] the first two
values form the only collision group and 0.3 is in none. -/
theorem C6_separation_grouping :
    (∀ a b : ℚ, collisionGroups MIN_FREQ_STEP [a, b] ≠ [] ↔ |a - b| < MIN_FREQ_STEP) ∧
    collisionGroups MIN_FREQ_STEP [1/10, 10005/100000, 3/10]
      = [[1/10, 10005/100000]] := by
  constructor
  · intro a b
    by_cases hab : a ≤ b
    · have hs : List.insertionSort (· ≤ ·) [a, b] = [a, b] := by
        simp [List.insertionSort, List.orderedInsert, hab]
      rw [collisionGroups, hs, collisionPair_aux, abs_sub_comm a b]
      by_cases h : |b - a| < MIN_FREQ_STEP <;> simp [h]
    · have hs : List.insertionSort (· ≤ ·) [a, b] = [b, a] := by
        simp [List.insertionSort, List.orderedInsert, hab]
      rw [collisionGroups, hs, collisionPair_aux]
      by_cases h : |a - b| < MIN_FREQ_STEP <;> simp [h]
  · norm_num [collisionGroups, gapGroups, MIN_FREQ_STEP,
      List.insertionSort, List.orderedInsert, abs]

/-- C6 witness: 1/10 and 10002/100000 differ by 1/50000 < MIN_FREQ_STEP and
are reported as a collision. -/
theorem C6_separation_grouping_witness :
    collisionGroups MIN_FREQ_STEP [1/10, 10002/100000] ≠ [] :=
  (C6_separation_grouping.1 (1/10) (10002/100000)).mpr (by
    rw [abs_of_nonpos (by norm_num)]
    norm_num [MIN_FREQ_STEP])

/-- C10: a locked rescale mutates the stored value of every widget in the full
widget list — hidden widgets whose parameters left the active set included —
while the sort write-back leaves every name outside the active slots untouched
and the separation check reads only the active slots. -/
theorem C10_rescale_scope (st : WidgetState) (fil : FilDict)
    (hlock : fil.freq_locked = true) (hfS : fil.f_S ≠ 0)
    (hnd : (st.qlineedit.map labelOf).Nodup) :
    (∀ name, name ∈ st.qlineedit →
      (recalc_freqs st fil).map (fun f => f.vals (labelOf name))
        = some (fil.vals (labelOf name) * fil.f_S_prev / fil.f_S)) ∧
    (∀ name, name ∉ activeNames st →
      (sort_dict_freqs st fil).vals name = fil.vals name) ∧
    (∀ fil2 : FilDict, (∀ n, n ∈ activeNames st → fil2.vals n = fil.vals n) →
      collisionGroups MIN_FREQ_STEP (f_specs st fil2)
        = collisionGroups MIN_FREQ_STEP (f_specs st fil)) := by
  refine ⟨fun name hmem => ?_, fun name hna => ?_, fun fil2 hag => ?_⟩
  · rw [recalc_freqs, if_pos hlock, if_neg (by simp [hfS])]
    simp [recalcFold_mem st.qlineedit _ _ _ name hnd hmem]
  · show writeBack fil.vals (activeNames st) (sortedSpecs st fil) name = fil.vals name
    exact writeBack_notMem _ _ _ _ hna
  · rw [f_specs, f_specs, List.map_congr_left hag]

/-- C10 witness: with only F_SB active (n_cur_labels = 1) and F_PB hidden, a
locked f_S change 1000 to 2000 still rescales the hidden F_PB, while a sort
leaves the hidden F_PB untouched. -/
theorem C10_rescale_scope_witness :
    (recalc_freqs ⟨["F_SB", "F_PB"], 1⟩
        ⟨fun n => if n = "F_PB" then 1/4 else 1/5, 2000, 1000, true, true⟩).map
        (fun f => f.vals (labelOf "F_PB"))
      = some ((1:ℚ)/4 * 1000 / 2000) ∧
    (sort_dict_freqs ⟨["F_SB", "F_PB"], 1⟩
        ⟨fun n => if n = "F_PB" then 1/4 else 1/5, 2000, 1000, true, true⟩).vals "F_PB"
      = (1:ℚ)/4 :=
  ⟨(C10_rescale_scope ⟨["F_SB", "F_PB"], 1⟩
      ⟨fun n => if n = "F_PB" then 1/4 else 1/5, 2000, 1000, true, true⟩
      rfl (by norm_num) (by decide)).1 "F_PB" (by decide),
   (C10_rescale_scope ⟨["F_SB", "F_PB"], 1⟩
      ⟨fun n => if n = "F_PB" then 1/4 else 1/5, 2000, 1000, true, true⟩
      rfl (by norm_num) (by decide)).2.1 "F_PB" (by decide)⟩
